import Mathlib

/-!
Verification of the rusty-claw orchestration core against its specification.

Each Rust function relevant to the checked claims is shallowly embedded as an
executable Lean definition; Rust `HashMap`s are embedded as association lists
so that the (otherwise unspecified) iteration order becomes an explicit
parameter, `u32`/`u64` become `Nat` (no operation here approaches the wrap
boundary), `i32` becomes `Int`, and fallible operations return `Option` or
`Except`.  File-system effects are made explicit: a function that writes a
file returns the written content, a function that depends on the clock takes
`now` as an argument.
-/

namespace RustyClaw

/-- Association-list lookup, the embedding of `HashMap::get` /
`HashMap::contains_key`. -/
def lookupKey (k : String) : List (String × β) → Option β
  | [] => none
  | (k₁, v) :: rest => if k₁ = k then some v else lookupKey k rest

/-- Association-list insert-or-update, the embedding of `HashMap::insert` /
`entry().or_insert` followed by a mutation. -/
def insertKey : List (String × β) → String → β → List (String × β)
  | [], k, v => [(k, v)]
  | (k₁, v₁) :: rest, k, v =>
    if k₁ = k then (k, v) :: rest else (k₁, v₁) :: insertKey rest k v

/-- Association-list removal, the embedding of `HashMap::remove`. -/
def removeKey : List (String × β) → String → List (String × β)
  | [], _ => []
  | (k₁, v₁) :: rest, k =>
    if k₁ = k then removeKey rest k else (k₁, v₁) :: removeKey rest k

theorem lookupKey_insertKey_self (l : List (String × β)) (k : String) (v : β) :
    lookupKey k (insertKey l k v) = some v := by
  induction l with
  | nil => simp [insertKey, lookupKey]
  | cons p rest ih =>
    obtain ⟨k₁, v₁⟩ := p
    by_cases h : k₁ = k
    · simp [insertKey, h, lookupKey]
    · simp [insertKey, h, lookupKey, ih]

theorem lookupKey_insertKey_other (l : List (String × β)) (k k₂ : String) (v : β)
    (h : k₂ ≠ k) : lookupKey k₂ (insertKey l k v) = lookupKey k₂ l := by
  induction l with
  | nil =>
    have h₂ : ¬(k = k₂) := fun hEq => h hEq.symm
    simp [insertKey, lookupKey, h₂]
  | cons p rest ih =>
    obtain ⟨k₁, v₁⟩ := p
    by_cases hk : k₁ = k
    · subst hk
      have h₂ : ¬(k₁ = k₂) := fun hEq => h hEq.symm
      simp [insertKey, lookupKey, h₂]
    · simp [insertKey, hk, lookupKey, ih]

theorem mem_insertKey {l : List (String × β)} {k : String} {v : β} {p : String × β}
    (h : p ∈ insertKey l k v) : p ∈ l ∨ p = (k, v) := by
  induction l with
  | nil =>
    simp [insertKey] at h
    exact Or.inr h
  | cons q rest ih =>
    obtain ⟨k₁, v₁⟩ := q
    by_cases hk : k₁ = k
    · simp only [insertKey, if_pos hk] at h
      rcases List.mem_cons.mp h with h₁ | h₁
      · exact Or.inr h₁
      · exact Or.inl (List.mem_cons_of_mem _ h₁)
    · simp only [insertKey, if_neg hk] at h
      rcases List.mem_cons.mp h with h₁ | h₁
      · exact Or.inl (by simp [h₁])
      · rcases ih h₁ with h₂ | h₂
        · exact Or.inl (List.mem_cons_of_mem _ h₂)
        · exact Or.inr h₂

theorem mem_removeKey {l : List (String × β)} {k : String} {p : String × β}
    (h : p ∈ removeKey l k) : p ∈ l := by
  induction l with
  | nil => simp [removeKey] at h
  | cons q rest ih =>
    obtain ⟨k₁, v₁⟩ := q
    by_cases hk : k₁ = k
    · simp only [removeKey, if_pos hk] at h
      exact List.mem_cons_of_mem _ (ih h)
    · simp only [removeKey, if_neg hk] at h
      rcases List.mem_cons.mp h with h₁ | h₁
      · exact List.mem_cons.mpr (Or.inl h₁)
      · exact List.mem_cons_of_mem _ (ih h₁)

/-! ## Cooldown / failover manager (`rustyclaw-core/src/failover.rs`) -/

/-- `CooldownEntry` from `failover.rs`: cooldown state for one
`provider:model` pair. -/
structure CooldownEntry where
  «until» : Nat
  error_count : Nat
deriving DecidableEq

/-- `calculate_cooldown_ms` from `failover.rs`: exponential backoff,
60s → 5min → 25min → 60min (capped), in milliseconds. -/
def calculate_cooldown_ms (error_count : Nat) : Nat :=
  let count := max error_count 1
  let exponent := min (count - 1) 3
  let seconds := 60 * 5 ^ exponent
  (min seconds 3600) * 1000

/-- `cooldown_key` from `failover.rs`. -/
def cooldown_key (provider model : String) : String :=
  provider ++ ":" ++ model

/-- The cooldown store: `HashMap<String, CooldownEntry>` as an
association list. -/
abbrev CooldownMap := List (String × CooldownEntry)

/-- `is_in_cooldown` from `failover.rs`, with the clock explicit. -/
def is_in_cooldown (cooldowns : CooldownMap) (key : String) (now : Nat) : Bool :=
  match lookupKey key cooldowns with
  | some entry => now < entry.«until»
  | none => false

/-- `FailoverReason` from `failover.rs`. -/
inductive FailoverReason where
  | RateLimit
  | Auth
  | Timeout
  | Unknown
deriving DecidableEq

/-- Substring test on character lists (Rust `str::contains`). -/
def substrB (needle haystack : List Char) : Bool :=
  (List.range (haystack.length + 1)).any
    (fun i => decide ((haystack.drop i).take needle.length = needle))

/-- ASCII lowercasing of a string's characters (Rust `str::to_lowercase`;
the inputs involved are ASCII). -/
def lowerChars (s : String) : List Char :=
  s.data.map Char.toLower

/-- `classify_error` from `failover.rs`: buckets an error message into a
failover reason by case-insensitive substring search. -/
def classify_error (error_msg : String) : FailoverReason :=
  let lower := lowerChars error_msg
  if substrB "rate limit".data lower || substrB "rate_limit".data lower ||
      substrB "429".data lower || substrB "too many requests".data lower then
    .RateLimit
  else if substrB "401".data lower || substrB "403".data lower ||
      substrB "402".data lower || substrB "unauthorized".data lower ||
      substrB "forbidden".data lower || substrB "authentication".data lower ||
      substrB "invalid api key".data lower || substrB "billing".data lower ||
      substrB "credit".data lower then
    .Auth
  else if substrB "timeout".data lower || substrB "408".data lower ||
      substrB "timed out".data lower || substrB "etimedout".data lower ||
      substrB "econnreset".data lower then
    .Timeout
  else
    .Unknown

/-- `record_failure` from `failover.rs`: bump the consecutive error count and
set `until = now + cooldown`.  The reason is recorded by the caller but does
not influence the backoff curve (the Rust parameter is `_reason`). -/
def record_failure (cooldowns : CooldownMap) (key : String)
    (_reason : FailoverReason) (now : Nat) : CooldownMap :=
  let old := (lookupKey key cooldowns).getD ⟨0, 0⟩
  insertKey cooldowns key
    ⟨now + calculate_cooldown_ms (old.error_count + 1), old.error_count + 1⟩

/-- `clear_cooldown` from `failover.rs`. -/
def clear_cooldown (cooldowns : CooldownMap) (key : String) : CooldownMap :=
  removeKey cooldowns key

/-! ## Session compaction thresholds (`rustyclaw-core/src/compaction.rs`) -/

/-- `CHARS_PER_TOKEN` from `compaction.rs`. -/
def CHARS_PER_TOKEN : Nat := 4

/-- `DEFAULT_CONTEXT_WINDOW` from `compaction.rs`. -/
def DEFAULT_CONTEXT_WINDOW : Nat := 200000

/-- `DEFAULT_RESERVE_TOKENS` from `compaction.rs`. -/
def DEFAULT_RESERVE_TOKENS : Nat := 40000

/-- `compaction_threshold_chars` from `compaction.rs`; Rust
`saturating_sub` is `Nat` subtraction. -/
def compaction_threshold_chars (context_window reserve_tokens : Nat) : Nat :=
  (context_window - reserve_tokens) * CHARS_PER_TOKEN

/-- `should_compact` from `compaction.rs`: strictly above the threshold. -/
def should_compact (total_chars context_window reserve_tokens : Nat) : Bool :=
  decide (compaction_threshold_chars context_window reserve_tokens < total_chars)

/-! ## Claim C2 -/

/-- C2: the cooldown window for consecutive-failure counts 1..5 is 60000,
300000, 1500000, 3600000, 3600000 milliseconds, and every count ≥ 4 yields
3600000 ms. -/
theorem cooldown_progression (n : Nat) (hn : 4 ≤ n) :
    calculate_cooldown_ms 1 = 60000 ∧
    calculate_cooldown_ms 2 = 300000 ∧
    calculate_cooldown_ms 3 = 1500000 ∧
    calculate_cooldown_ms 4 = 3600000 ∧
    calculate_cooldown_ms 5 = 3600000 ∧
    calculate_cooldown_ms n = 3600000 := by
  refine ⟨by decide, by decide, by decide, by decide, by decide, ?_⟩
  have hmax : max n 1 = n := by omega
  have hmin : min (n - 1) 3 = 3 := by omega
  simp [calculate_cooldown_ms, hmax, hmin]

/-- C2 witness: the general clause applied at n = 7. -/
theorem cooldown_progression_witness :
    calculate_cooldown_ms 7 = 3600000 :=
  (cooldown_progression 7 (by decide)).2.2.2.2.2

/-! ## Claim C7 -/

/-- C7: with a 200000-token window and 40000-token reserve at 4 chars per
token the compaction threshold is 640000 characters, `should_compact` is
strict at the threshold, and in general compaction triggers exactly when the
running total strictly exceeds `(context_window − reserve) × 4`. -/
theorem should_compact_strict_threshold :
    compaction_threshold_chars 200000 40000 = 640000 ∧
    should_compact 640000 200000 40000 = false ∧
    should_compact 640001 200000 40000 = true ∧
    ∀ total_chars context_window reserve_tokens,
      should_compact total_chars context_window reserve_tokens = true ↔
        (context_window - reserve_tokens) * CHARS_PER_TOKEN < total_chars := by
  refine ⟨by decide, by decide, by decide, ?_⟩
  intro t cw r
  simp [should_compact, compaction_threshold_chars]

/-! ## Agent invocation with failover (`rustyclaw-queue/src/invoke.rs`) -/

theorem lookupKey_removeKey_other (l : List (String × β)) (k k₂ : String)
    (h : k₂ ≠ k) : lookupKey k₂ (removeKey l k) = lookupKey k₂ l := by
  induction l with
  | nil => rfl
  | cons p rest ih =>
    obtain ⟨k₁, v₁⟩ := p
    by_cases hk : k₁ = k
    · have h₂ : ¬(k = k₂) := fun hEq => h hEq.symm
      simp [removeKey, hk, lookupKey, h₂, ih]
    · simp [removeKey, hk, lookupKey, ih]

/-- `calculate_cooldown_ms` always yields a positive window. -/
theorem calculate_cooldown_ms_pos (n : Nat) : 0 < calculate_cooldown_ms n := by
  have h : ∀ e : Nat, 0 < (min (60 * 5 ^ e) 3600) * 1000 := by
    intro e
    have hx : 0 < (5 : Nat) ^ e := Nat.pow_pos (by norm_num)
    have hy : 60 ≤ 60 * (5 : Nat) ^ e := Nat.le_mul_of_pos_right 60 hx
    omega
  exact h _

/-- Immediately after `record_failure` the key is in cooldown. -/
theorem is_in_cooldown_record_self (cds : CooldownMap) (key : String)
    (reason : FailoverReason) (now : Nat) :
    is_in_cooldown (record_failure cds key reason now) key now = true := by
  unfold is_in_cooldown record_failure
  rw [lookupKey_insertKey_self]
  have := calculate_cooldown_ms_pos
    (((lookupKey key cds).getD ⟨0, 0⟩).error_count + 1)
  simpa using by omega

/-- The fallback scan from `invoke_agent_with_failover` in `invoke.rs`:
walk the configured fallback models in order, skip any model whose key is in
cooldown, record a failure and continue on error, clear only the succeeding
key and stop on success.  `invoke` is the oracle for `invoke_agent`'s
outcome on a given model. -/
def try_fallback_models (provider : String) (invoke : String → Except String String)
    (now : Nat) : List String → CooldownMap → Option String × CooldownMap
  | [], cooldowns => (none, cooldowns)
  | model :: rest, cooldowns =>
    let key := cooldown_key provider model
    if is_in_cooldown cooldowns key now then
      try_fallback_models provider invoke now rest cooldowns
    else
      match invoke model with
      | .ok response => (some response, clear_cooldown cooldowns key)
      | .error e =>
        try_fallback_models provider invoke now rest
          (record_failure cooldowns key (classify_error e) now)

/-- `invoke_agent_with_failover` from `invoke.rs`: try the primary
`provider:model` unless it is cooling down, then the fallbacks in order.
A `none` result is the aggregate failure (primary and every fallback failed
or was skipped). -/
def invoke_agent_with_failover (provider primary_model : String)
    (fallbacks : List String) (invoke : String → Except String String)
    (cooldowns : CooldownMap) (now : Nat) : Option String × CooldownMap :=
  let primary_key := cooldown_key provider primary_model
  if is_in_cooldown cooldowns primary_key now then
    try_fallback_models provider invoke now fallbacks cooldowns
  else
    match invoke primary_model with
    | .ok response => (some response, clear_cooldown cooldowns primary_key)
    | .error e =>
      try_fallback_models provider invoke now fallbacks
        (record_failure cooldowns primary_key (classify_error e) now)

/-- The fallback scan never touches the entry of a key that is in cooldown
when the scan starts. -/
theorem try_fallback_preserves_cooled (provider : String)
    (invoke : String → Except String String) (now : Nat) (k : String) :
    ∀ (models : List String) (cds : CooldownMap),
      is_in_cooldown cds k now = true →
      lookupKey k (try_fallback_models provider invoke now models cds).2 =
        lookupKey k cds := by
  intro models
  induction models with
  | nil => intro cds _; rfl
  | cons m rest ih =>
    intro cds hcool
    by_cases hskip : is_in_cooldown cds (cooldown_key provider m) now = true
    · simp only [try_fallback_models, hskip, if_true]
      exact ih cds hcool
    · have hne : cooldown_key provider m ≠ k := by
        intro hEq; rw [hEq] at hskip; exact hskip hcool
      have hne' : k ≠ cooldown_key provider m := fun hEq => hne hEq.symm
      simp only [try_fallback_models, hskip, if_false, Bool.false_eq_true]
      cases hinv : invoke m with
      | ok r => simpa [clear_cooldown] using lookupKey_removeKey_other cds _ k hne'
      | error e =>
        have hpres := lookupKey_insertKey_other cds (cooldown_key provider m) k
          ⟨now + calculate_cooldown_ms
            (((lookupKey (cooldown_key provider m) cds).getD ⟨0, 0⟩).error_count + 1),
           ((lookupKey (cooldown_key provider m) cds).getD ⟨0, 0⟩).error_count + 1⟩ hne'

        have hcool₂ : is_in_cooldown
            (record_failure cds (cooldown_key provider m) (classify_error e) now) k now = true := by
          unfold is_in_cooldown at hcool ⊢
          unfold record_failure
          rw [hpres]
          exact hcool
        rw [ih _ hcool₂]
        unfold record_failure
        exact hpres

/-- A successful fallback scan succeeds on a configured model whose key was
reachable (not the scan-start cooled key `k`). -/
theorem try_fallback_success_key (provider : String)
    (invoke : String → Except String String) (now : Nat) (k : String) :
    ∀ (models : List String) (cds : CooldownMap) (r : String) (final : CooldownMap),
      is_in_cooldown cds k now = true →
      try_fallback_models provider invoke now models cds = (some r, final) →
      ∃ fb ∈ models, invoke fb = .ok r ∧ cooldown_key provider fb ≠ k := by
  intro models
  induction models with
  | nil =>
    intro cds r final _ h
    simp [try_fallback_models] at h
  | cons m rest ih =>
    intro cds r final hcool h
    by_cases hskip : is_in_cooldown cds (cooldown_key provider m) now = true
    · simp only [try_fallback_models, hskip, if_true] at h
      obtain ⟨fb, hmem, hok, hne⟩ := ih cds r final hcool h
      exact ⟨fb, List.mem_cons_of_mem _ hmem, hok, hne⟩
    · have hne : cooldown_key provider m ≠ k := by
        intro hEq; rw [hEq] at hskip; exact hskip hcool
      simp only [try_fallback_models, hskip, if_false, Bool.false_eq_true] at h
      cases hinv : invoke m with
      | ok r₁ =>
        rw [hinv] at h
        have hr : r₁ = r := by
          simpa using congrArg Prod.fst h
        exact ⟨m, List.mem_cons_self _ _, by rw [hinv, hr], hne⟩
      | error e =>
        rw [hinv] at h
        have hne' : k ≠ cooldown_key provider m := fun hEq => hne hEq.symm
        have hcool₂ : is_in_cooldown
            (record_failure cds (cooldown_key provider m) (classify_error e) now) k now = true := by
          unfold is_in_cooldown at hcool ⊢
          unfold record_failure
          rw [lookupKey_insertKey_other _ _ _ _ hne']
          exact hcool
        obtain ⟨fb, hmem, hok, hne₂⟩ := ih _ r final hcool₂ h
        exact ⟨fb, List.mem_cons_of_mem _ hmem, hok, hne₂⟩

/-- The fallback scan clears at most one key: the succeeding model's own
key.  Any key present before the scan and absent after it belongs to the
model that produced the returned success. -/
theorem try_fallback_clears_only_winner (provider : String)
    (invoke : String → Except String String) (now : Nat) :
    ∀ (models : List String) (cds : CooldownMap) (res : Option String) (final : CooldownMap),
      try_fallback_models provider invoke now models cds = (res, final) →
      ∀ k, lookupKey k cds ≠ none → lookupKey k final = none →
        ∃ fb r, fb ∈ models ∧ res = some r ∧ invoke fb = .ok r ∧
          cooldown_key provider fb = k := by
  intro models
  induction models with
  | nil =>
    intro cds res final h k hpre hpost
    simp [try_fallback_models] at h
    rw [← h.2] at hpost
    exact absurd hpost hpre
  | cons m rest ih =>
    intro cds res final h k hpre hpost
    by_cases hskip : is_in_cooldown cds (cooldown_key provider m) now = true
    · simp only [try_fallback_models, hskip, if_true] at h
      obtain ⟨fb, r, hmem, hres, hok, hkey⟩ := ih cds res final h k hpre hpost
      exact ⟨fb, r, List.mem_cons_of_mem _ hmem, hres, hok, hkey⟩
    · simp only [try_fallback_models, hskip, if_false, Bool.false_eq_true] at h
      cases hinv : invoke m with
      | ok r₁ =>
        rw [hinv] at h
        have hres : res = some r₁ := (congrArg Prod.fst h).symm
        have hfin : final = clear_cooldown cds (cooldown_key provider m) :=
          (congrArg Prod.snd h).symm
        by_cases hk : k = cooldown_key provider m
        · exact ⟨m, r₁, List.mem_cons_self _ _, hres, hinv, hk.symm⟩
        · exfalso
          rw [hfin] at hpost
          rw [clear_cooldown, lookupKey_removeKey_other _ _ _ hk] at hpost
          exact hpre hpost
      | error e =>
        rw [hinv] at h
        have hpre₂ : lookupKey k
            (record_failure cds (cooldown_key provider m) (classify_error e) now) ≠ none := by
          by_cases hk : k = cooldown_key provider m
          · subst hk
            unfold record_failure
            rw [lookupKey_insertKey_self]
            simp
          · unfold record_failure
            rw [lookupKey_insertKey_other _ _ _ _ hk]
            exact hpre
        obtain ⟨fb, r, hmem, hres, hok, hkey⟩ := ih _ res final h k hpre₂ hpost
        exact ⟨fb, r, List.mem_cons_of_mem _ hmem, hres, hok, hkey⟩

/-- When no fallback model can succeed, the scan returns the aggregate
failure `none`. -/
theorem try_fallback_exhausted (provider : String)
    (invoke : String → Except String String) (now : Nat) :
    ∀ (models : List String) (cds : CooldownMap),
      (∀ m ∈ models, ∀ s, invoke m ≠ .ok s) →
      (try_fallback_models provider invoke now models cds).1 = none := by
  intro models
  induction models with
  | nil => intro cds _; rfl
  | cons m rest ih =>
    intro cds hfail
    by_cases hskip : is_in_cooldown cds (cooldown_key provider m) now = true
    · simp only [try_fallback_models, hskip, if_true]
      exact ih cds (fun m₁ hm₁ => hfail m₁ (List.mem_cons_of_mem _ hm₁))
    · simp only [try_fallback_models, hskip, if_false, Bool.false_eq_true]
      cases hinv : invoke m with
      | ok r => exact absurd hinv (hfail m (List.mem_cons_self _ _) r)
      | error e =>
        exact ih _ (fun m₁ hm₁ => hfail m₁ (List.mem_cons_of_mem _ hm₁))

/-! ## Claim C6 -/

/-- C6: after the primary model fails (outside cooldown), the fallbacks are
scanned in configured order with cooled-down entries skipped; if the scan
returns a success, the succeeding model is one of the configured fallbacks,
its key differs from the primary key, the primary's freshly recorded
cooldown entry is still present (and still cooling) afterwards, and no key
other than the succeeding model's own was cleared; if no fallback can
succeed, the aggregate result is a failure. -/
theorem failover_frame_effect (provider primary_model : String)
    (fallbacks : List String) (invoke : String → Except String String)
    (cooldowns : CooldownMap) (now : Nat) (e : String)
    (hnc : is_in_cooldown cooldowns (cooldown_key provider primary_model) now = false)
    (hfail : invoke primary_model = .error e) :
    invoke_agent_with_failover provider primary_model fallbacks invoke cooldowns now =
      try_fallback_models provider invoke now fallbacks
        (record_failure cooldowns (cooldown_key provider primary_model)
          (classify_error e) now) ∧
    (∀ r final,
      invoke_agent_with_failover provider primary_model fallbacks invoke cooldowns now
          = (some r, final) →
      (∃ fb ∈ fallbacks, invoke fb = .ok r ∧
          cooldown_key provider fb ≠ cooldown_key provider primary_model) ∧
      (lookupKey (cooldown_key provider primary_model) final =
          lookupKey (cooldown_key provider primary_model)
            (record_failure cooldowns (cooldown_key provider primary_model)
              (classify_error e) now) ∧
        is_in_cooldown final (cooldown_key provider primary_model) now = true) ∧
      (∀ k,
        lookupKey k (record_failure cooldowns (cooldown_key provider primary_model)
          (classify_error e) now) ≠ none →
        lookupKey k final = none →
        ∃ fb r₁, fb ∈ fallbacks ∧ some r₁ = some r ∧ invoke fb = .ok r₁ ∧
          cooldown_key provider fb = k)) ∧
    ((∀ m ∈ fallbacks, ∀ s, invoke m ≠ .ok s) →
      (invoke_agent_with_failover provider primary_model fallbacks invoke
        cooldowns now).1 = none) := by
  have hunfold : invoke_agent_with_failover provider primary_model fallbacks invoke
      cooldowns now =
      try_fallback_models provider invoke now fallbacks
        (record_failure cooldowns (cooldown_key provider primary_model)
          (classify_error e) now) := by
    simp [invoke_agent_with_failover, hnc, hfail]
  refine ⟨hunfold, ?_, ?_⟩
  · intro r final h
    rw [hunfold] at h
    have hcool : is_in_cooldown
        (record_failure cooldowns (cooldown_key provider primary_model)
          (classify_error e) now)
        (cooldown_key provider primary_model) now = true :=
      is_in_cooldown_record_self _ _ _ _
    refine ⟨?_, ⟨?_, ?_⟩, ?_⟩
    · exact try_fallback_success_key provider invoke now _ fallbacks _ r final hcool h
    · have := try_fallback_preserves_cooled provider invoke now
        (cooldown_key provider primary_model) fallbacks _ hcool
      rw [h] at this
      exact this
    · have hpres := try_fallback_preserves_cooled provider invoke now
        (cooldown_key provider primary_model) fallbacks _ hcool
      rw [h] at hpres
      unfold is_in_cooldown at hcool ⊢
      rw [hpres]
      exact hcool
    · intro k hpre hpost
      obtain ⟨fb, r₁, hmem, hres, hok, hkey⟩ :=
        try_fallback_clears_only_winner provider invoke now fallbacks _ (some r) final h
          k hpre hpost
      exact ⟨fb, r₁, hmem, hres.symm, hok, hkey⟩
  · intro hall
    rw [hunfold]
    exact try_fallback_exhausted provider invoke now fallbacks _ hall

/-- Invocation oracle for the C6 witness: the primary model `m0` hits a
429-style error, the fallback `m1` succeeds. -/
def witnessInvoke : String → Except String String :=
  fun m => if m = "m0" then .error "429 Too Many Requests" else .ok "done"

/-- C6 witness: `failover_frame_effect` applied to a concrete scenario with
an empty initial cooldown store. -/
theorem failover_frame_effect_witness :
    invoke_agent_with_failover "p" "m0" ["m1"] witnessInvoke [] 0 =
      try_fallback_models "p" witnessInvoke 0 ["m1"]
        (record_failure [] (cooldown_key "p" "m0")
          (classify_error "429 Too Many Requests") 0) :=
  (failover_frame_effect "p" "m0" ["m1"] witnessInvoke [] 0 "429 Too Many Requests"
    (by rfl) (by rfl)).1

/-! ## Agent and team configuration (`rustyclaw-core/src/types.rs`) -/

/-- `AgentConfig` from `types.rs`. -/
structure AgentConfig where
  name : String
  provider : String
  model : String
  working_directory : String
  reset_policy : String
  reset_hour : Option Nat
  idle_timeout_minutes : Option Nat
  context_window : Option Nat
  fallbacks : Option (List String)
  cross_team_handoffs : Bool
  route_patterns : Option (List String)
  route_priority : Nat
deriving DecidableEq

/-- `TeamConfig` from `types.rs`. -/
structure TeamConfig where
  name : String
  agents : List String
  leader_agent : String
  description : Option String
deriving DecidableEq

/-! ## Smart content routing (`rustyclaw-core/src/smart_routing.rs`) -/

/-- Regex `\w` (word character); the embedded texts are ASCII. -/
def isWordChar (c : Char) : Bool :=
  c.isAlphanum || c = '_'

/-- Whether position `i` of `chars` holds a word character (out of bounds
counts as a non-word character). -/
def wordAt (chars : List Char) (i : Nat) : Bool :=
  isWordChar (chars.getD i ' ')

/-- Regex `\b` between positions `i - 1` and `i`: exactly one side is a
word character. -/
def boundaryAt (chars : List Char) (i : Nat) : Bool :=
  (if i = 0 then false else wordAt chars (i - 1)) != wordAt chars i

/-- The regex `(?i)\b{escaped pattern}\b` applied to the already lowercased
message: the pattern occurs at some position with a word boundary on both
sides. -/
def wholeWordMatch (pat msg : List Char) : Bool :=
  (List.range (msg.length + 1)).any (fun i =>
    decide ((msg.drop i).take pat.length = pat) && boundaryAt msg i &&
      boundaryAt msg (i + pat.length))

/-- The inner loop of `match_agent_by_content`: how many of the agent's
patterns match the message (both sides lowercased, whole-word). -/
def countPatternMatches (message : String) (patterns : List String) : Nat :=
  patterns.countP (fun p => wholeWordMatch (lowerChars p) (lowerChars message))

/-- Effective match count of an agent.  In the Rust code agents with
`route_patterns` `None` or `Some(vec![])` are skipped before counting; both
cases give count 0 here and take the same skip branch, which is
behaviorally identical. -/
def effMatchCount (message : String) (cfg : AgentConfig) : Nat :=
  match cfg.route_patterns with
  | some patterns => countPatternMatches message patterns
  | none => 0

/-- The scan loop of `match_agent_by_content` from `smart_routing.rs`, with
the `HashMap` iteration order made explicit as the list order.  `best`
carries `(agent_id, priority, match_count)`; a scanned agent that ties the
running best in both components makes the whole function return `None`
(Rust `return None`). -/
def smartRoutingGo (message : String) :
    List (String × AgentConfig) → Option (String × Nat × Nat) → Option String
  | [], best => best.map (fun b => b.1)
  | (agent_id, cfg) :: rest, best =>
    let mc := effMatchCount message cfg
    if mc = 0 then smartRoutingGo message rest best
    else
      match best with
      | none => smartRoutingGo message rest (some (agent_id, cfg.route_priority, mc))
      | some (bid, bp, bc) =>
        if bp < cfg.route_priority ∨ (cfg.route_priority = bp ∧ bc < mc) then
          smartRoutingGo message rest (some (agent_id, cfg.route_priority, mc))
        else if cfg.route_priority = bp ∧ mc = bc then none
        else smartRoutingGo message rest (some (bid, bp, bc))

/-- `match_agent_by_content` from `smart_routing.rs`. -/
def match_agent_by_content (message : String)
    (agents : List (String × AgentConfig)) : Option String :=
  smartRoutingGo message agents none

/-- Strict lexicographic order on `(priority, match_count)` pairs. -/
def lexLt (a b : Nat × Nat) : Prop :=
  a.1 < b.1 ∨ (a.1 = b.1 ∧ a.2 < b.2)

/-- Reflexive closure of `lexLt`. -/
def lexLe (a b : Nat × Nat) : Prop :=
  lexLt a b ∨ a = b

instance (a b : Nat × Nat) : Decidable (lexLt a b) := by
  unfold lexLt
  infer_instance

instance (a b : Nat × Nat) : Decidable (lexLe a b) := by
  unfold lexLe
  infer_instance

theorem lexLt_of_lt_of_le {a b c : Nat × Nat} (h₁ : lexLt a b) (h₂ : lexLe b c) :
    lexLt a c := by
  obtain ⟨a₁, a₂⟩ := a
  obtain ⟨b₁, b₂⟩ := b
  obtain ⟨c₁, c₂⟩ := c
  simp only [lexLt, lexLe, Prod.mk.injEq] at *
  omega

/-- The `(priority, match_count)` statistics of an agent for a message. -/
def routeStats (message : String) (cfg : AgentConfig) : Nat × Nat :=
  (cfg.route_priority, effMatchCount message cfg)

/-- Invariant of the smart-routing scan: a returned winner strictly
dominates, in `(priority, match_count)` lexicographic order, the running
best it replaced and every other matching agent in the remaining list. -/

theorem someTriple_inj {a₁ b₁ : String} {a₂ a₃ b₂ b₃ : Nat}
    (h : (some (a₁, a₂, a₃) : Option (String × Nat × Nat)) = some (b₁, b₂, b₃)) :
    a₁ = b₁ ∧ a₂ = b₂ ∧ a₃ = b₃ := by
  have h₁ := Option.some.inj h
  simpa [Prod.ext_iff] using h₁

/-- Invariant of the smart-routing scan: a returned winner strictly
dominates, in `(priority, match_count)` lexicographic order, the running
best it replaced and every other matching agent in the remaining list. -/
theorem smartRoutingGo_sound (message : String) :
    ∀ (l : List (String × AgentConfig)) (best : Option (String × Nat × Nat)) (id : String),
      smartRoutingGo message l best = some id →
      ∃ p c,
        ((∃ bp bc, best = some (id, bp, bc) ∧ p = bp ∧ c = bc) ∨
          (∃ cfg, (id, cfg) ∈ l ∧ p = cfg.route_priority ∧
            c = effMatchCount message cfg ∧ 0 < c)) ∧
        (∀ bid bp bc, best = some (bid, bp, bc) →
          lexLe (bp, bc) (p, c) ∧ (bid ≠ id → lexLt (bp, bc) (p, c))) ∧
        (∀ q ∈ l, 0 < effMatchCount message q.2 → q.1 ≠ id →
          lexLt (routeStats message q.2) (p, c)) := by
  intro l
  induction l with
  | nil =>
    intro best id h
    simp only [smartRoutingGo] at h
    obtain ⟨b, hb, hid⟩ := Option.map_eq_some'.mp h
    obtain ⟨bid, bp, bc⟩ := b
    simp only at hid
    subst hid
    refine ⟨bp, bc, Or.inl ⟨bp, bc, hb, rfl, rfl⟩, ?_, ?_⟩
    · intro bid₁ bp₁ bc₁ hbest
      rw [hb] at hbest
      obtain ⟨h₂, h₃, h₄⟩ := someTriple_inj hbest
      subst h₂; subst h₃; subst h₄
      exact ⟨Or.inr rfl, fun hne => absurd rfl hne⟩
    · intro q hq
      simp at hq
  | cons head rest ih =>
    intro best id h
    obtain ⟨a, cfga⟩ := head
    by_cases hmc : effMatchCount message cfga = 0
    · simp only [smartRoutingGo] at h
      rw [if_pos hmc] at h
      obtain ⟨p, c, hwin, hbest, hall⟩ := ih best id h
      refine ⟨p, c, ?_, hbest, ?_⟩
      · rcases hwin with hwin | ⟨cfg, hmem, hrest⟩
        · exact Or.inl hwin
        · exact Or.inr ⟨cfg, List.mem_cons_of_mem _ hmem, hrest⟩
      · intro q hq hqmc hqne
        rcases List.mem_cons.mp hq with hq₁ | hq₁
        · rw [hq₁] at hqmc
          simp only at hqmc
          omega
        · exact hall q hq₁ hqmc hqne
    · cases best with
      | none =>
        simp only [smartRoutingGo] at h
        rw [if_neg hmc] at h
        obtain ⟨p, c, hwin, hbest, hall⟩ :=
          ih (some (a, cfga.route_priority, effMatchCount message cfga)) id h
        have hle := hbest a cfga.route_priority (effMatchCount message cfga) rfl
        refine ⟨p, c, ?_, ?_, ?_⟩
        · rcases hwin with ⟨bp, bc, heq, hp, hc⟩ | ⟨cfg, hmem, hrest⟩
          · obtain ⟨ha, hbp, hbc⟩ := someTriple_inj heq
            refine Or.inr ⟨cfga, ?_, ?_, ?_, ?_⟩
            · rw [← ha]; exact List.mem_cons_self _ _
            · rw [hp, ← hbp]
            · rw [hc, ← hbc]
            · rw [hc, ← hbc]; omega
          · exact Or.inr ⟨cfg, List.mem_cons_of_mem _ hmem, hrest⟩
        · intro bid bp bc habs
          exact Option.noConfusion habs
        · intro q hq hqmc hqne
          rcases List.mem_cons.mp hq with hq₁ | hq₁
          · rw [hq₁] at hqne hqmc ⊢
            simp only at hqne hqmc ⊢
            exact hle.2 hqne
          · exact hall q hq₁ hqmc hqne
      | some b =>
        obtain ⟨bid, bp, bc⟩ := b
        by_cases himp : bp < cfga.route_priority ∨
            (cfga.route_priority = bp ∧ bc < effMatchCount message cfga)
        · simp only [smartRoutingGo] at h
          rw [if_neg hmc, if_pos himp] at h
          obtain ⟨p, c, hwin, hbest, hall⟩ :=
            ih (some (a, cfga.route_priority, effMatchCount message cfga)) id h
          have hle := hbest a cfga.route_priority (effMatchCount message cfga) rfl
          have hblt : lexLt (bp, bc) (cfga.route_priority, effMatchCount message cfga) := by
            rcases himp with h₁ | ⟨h₁, h₂⟩
            · exact Or.inl h₁
            · exact Or.inr ⟨h₁.symm, h₂⟩
          have hbfin : lexLt (bp, bc) (p, c) := lexLt_of_lt_of_le hblt hle.1
          refine ⟨p, c, ?_, ?_, ?_⟩
          · rcases hwin with ⟨bp₁, bc₁, heq, hp, hc⟩ | ⟨cfg, hmem, hrest⟩
            · obtain ⟨ha, hbp, hbc⟩ := someTriple_inj heq
              refine Or.inr ⟨cfga, ?_, ?_, ?_, ?_⟩
              · rw [← ha]; exact List.mem_cons_self _ _
              · rw [hp, ← hbp]
              · rw [hc, ← hbc]
              · rw [hc, ← hbc]; omega
            · exact Or.inr ⟨cfg, List.mem_cons_of_mem _ hmem, hrest⟩
          · intro bid₁ bp₁ bc₁ heq₁
            obtain ⟨hb₁, hbp, hbc⟩ := someTriple_inj heq₁
            rw [← hbp, ← hbc]
            exact ⟨Or.inl hbfin, fun _ => hbfin⟩
          · intro q hq hqmc hqne
            rcases List.mem_cons.mp hq with hq₁ | hq₁
            · rw [hq₁] at hqne hqmc ⊢
              simp only at hqne hqmc ⊢
              exact hle.2 hqne
            · exact hall q hq₁ hqmc hqne
        · by_cases htie : cfga.route_priority = bp ∧ effMatchCount message cfga = bc
          · simp only [smartRoutingGo] at h
            rw [if_neg hmc, if_neg himp, if_pos htie] at h
            exact Option.noConfusion h
          · simp only [smartRoutingGo] at h
            rw [if_neg hmc, if_neg himp, if_neg htie] at h
            obtain ⟨p, c, hwin, hbest, hall⟩ := ih (some (bid, bp, bc)) id h
            have hle := hbest bid bp bc rfl
            have hqlt : lexLt (cfga.route_priority, effMatchCount message cfga) (bp, bc) := by
              by_cases hpa : cfga.route_priority = bp
              · refine Or.inr ⟨hpa, ?_⟩
                have h₂ : ¬bc < effMatchCount message cfga :=
                  fun hlt => himp (Or.inr ⟨hpa, hlt⟩)
                have h₃ : ¬effMatchCount message cfga = bc :=
                  fun hEq => htie ⟨hpa, hEq⟩
                omega
              · refine Or.inl ?_
                have h₂ : ¬bp < cfga.route_priority := fun hlt => himp (Or.inl hlt)
                omega
            refine ⟨p, c, ?_, ?_, ?_⟩
            · rcases hwin with ⟨bp₁, bc₁, heq, hp, hc⟩ | ⟨cfg, hmem, hrest⟩
              · exact Or.inl ⟨bp₁, bc₁, heq, hp, hc⟩
              · exact Or.inr ⟨cfg, List.mem_cons_of_mem _ hmem, hrest⟩
            · intro bid₁ bp₁ bc₁ heq₁
              obtain ⟨hb₁, hbp, hbc⟩ := someTriple_inj heq₁
              rw [← hb₁, ← hbp, ← hbc]
              exact hle
            · intro q hq hqmc hqne
              rcases List.mem_cons.mp hq with hq₁ | hq₁
              · rw [hq₁]
                simp only [routeStats]
                exact lexLt_of_lt_of_le hqlt hle.1
              · exact hall q hq₁ hqmc hqne

/-! ## Claim C3 -/

/-- An `AgentConfig` with only the smart-routing fields populated (the
shape of the `make_agent` helper in the repository's own tests). -/
def mkRouteCfg (patterns : Option (List String)) (priority : Nat) : AgentConfig :=
  { name := "", provider := "anthropic", model := "sonnet", working_directory := "",
    reset_policy := "", reset_hour := none, idle_timeout_minutes := none,
    context_window := none, fallbacks := none, cross_team_handoffs := true,
    route_patterns := patterns, route_priority := priority }

/-- Scan order exhibiting the counterexample: two priority-5 agents first,
a priority-9 agent last, all matching the message. -/
def tieAgents : List (String × AgentConfig) :=
  [("a", mkRouteCfg (some ["x"]) 5), ("b", mkRouteCfg (some ["x"]) 5),
   ("c", mkRouteCfg (some ["x"]) 9)]

/-- C3 counterexample: on message "x" every agent of `tieAgents` matches
once and agent "c" has the strictly highest priority, yet
`match_agent_by_content` returns no agent, because the scan hits the tie
between "a" and "b" (the running best) before ever reaching "c" and
immediately returns `None`. -/
theorem smart_routing_tie_counterexample :
    match_agent_by_content "x" tieAgents = none ∧
    ("c", mkRouteCfg (some ["x"]) 9) ∈ tieAgents ∧
    0 < effMatchCount "x" (mkRouteCfg (some ["x"]) 9) ∧
    ∀ q ∈ tieAgents, q.1 ≠ "c" → 0 < effMatchCount "x" q.2 →
      lexLt (routeStats "x" q.2) (routeStats "x" (mkRouteCfg (some ["x"]) 9)) := by
  decide

/-- C3 (amended): when smart routing does return an agent, that agent
matches the message and strictly dominates every other matching agent in
`(priority, match_count)` lexicographic order — but a matching agent that
ties the running best during the left-to-right scan makes the resolver
return no agent even when a strictly dominating agent appears later. -/
theorem match_agent_by_content_sound (message : String)
    (agents : List (String × AgentConfig)) (id : String)
    (h : match_agent_by_content message agents = some id) :
    ∃ cfg, (id, cfg) ∈ agents ∧ 0 < effMatchCount message cfg ∧
      ∀ q ∈ agents, 0 < effMatchCount message q.2 → q.1 ≠ id →
        lexLt (routeStats message q.2) (routeStats message cfg) := by
  obtain ⟨p, c, hwin, hbest, hall⟩ := smartRoutingGo_sound message agents none id h
  rcases hwin with ⟨bp, bc, habs, _, _⟩ | ⟨cfg, hmem, hp, hc, hpos⟩
  · exact Option.noConfusion habs
  · refine ⟨cfg, hmem, ?_, ?_⟩
    · rw [hc] at hpos
      exact hpos
    · intro q hq hqmc hqne
      have h₁ := hall q hq hqmc hqne
      have hstats : routeStats message cfg = (p, c) := by
        simp only [routeStats]
        rw [hp, hc]
      rw [hstats]
      exact h₁

/-- Agents for the C3 witness: distinct priorities, both matching. -/
def routeWitnessAgents : List (String × AgentConfig) :=
  [("a", mkRouteCfg (some ["x"]) 1), ("b", mkRouteCfg (some ["x"]) 2)]

/-- C3 witness: the amended soundness theorem applied to a concrete scan
where agent "b" wins. -/
theorem match_agent_by_content_sound_witness :
    ∃ cfg, ("b", cfg) ∈ routeWitnessAgents ∧ 0 < effMatchCount "x" cfg ∧
      ∀ q ∈ routeWitnessAgents, 0 < effMatchCount "x" q.2 → q.1 ≠ "b" →
        lexLt (routeStats "x" q.2) (routeStats "x" cfg) :=
  match_agent_by_content_sound "x" routeWitnessAgents "b" (by decide)

/-! ## Routing resolver (`rustyclaw-core/src/routing.rs`) -/

/-- `RoutingResult` from `types.rs`. -/
structure RoutingResult where
  agent_id : String
  message : String
  is_team : Bool
  multi_agents : List String
deriving DecidableEq

/-- Single pass of `str::split_whitespace`, carrying the current in-flight
token. -/
def splitWhitespaceGo : List Char → List Char → List (List Char)
  | [], acc => if acc = [] then [] else [acc]
  | c :: cs, acc =>
    if c.isWhitespace then
      if acc = [] then splitWhitespaceGo cs []
      else acc :: splitWhitespaceGo cs []
    else splitWhitespaceGo cs (acc ++ [c])

/-- Rust `str::split_whitespace` on a character list: maximal runs of
non-whitespace characters, whitespace runs discarded. -/
def splitWhitespaceAux (s : List Char) : List (List Char) :=
  splitWhitespaceGo s []

/-- Whether a token starts with the routing sigil. -/
def startsWithAt : List Char → Bool
  | '@' :: _ => true
  | _ => false

/-- The token loop of `detect_multiple_agents` from `routing.rs`: walk the
whitespace-separated tokens from the start, collect the lowercased id of
every known-agent `@token` (no duplicates), stop at the first token that
does not start with `@`. -/
def collectLeadingAgents (agents : List (String × AgentConfig)) :
    List (List Char) → List String → List String
  | [], acc => acc
  | tok :: rest, acc =>
    match tok with
    | '@' :: idChars =>
      let agent_id : String := ⟨idChars.map Char.toLower⟩
      if (lookupKey agent_id agents).isSome ∧ agent_id ∉ acc then
        collectLeadingAgents agents rest (acc ++ [agent_id])
      else
        collectLeadingAgents agents rest acc
    | _ => acc

/-- `detect_multiple_agents` from `routing.rs`: the collected run, cleared
when more than one agent was found but all of them belong to one team. -/
def detect_multiple_agents (message : String)
    (agents : List (String × AgentConfig))
    (teams : List (String × TeamConfig)) : List String :=
  let valid := collectLeadingAgents agents (splitWhitespaceAux message.data) []
  if 1 < valid.length ∧
      teams.any (fun t => valid.all (fun a => t.2.agents.contains a)) then
    []
  else
    valid

/-- The regex `^@(\S+)\s+([\s\S]*)$` from `parse_agent_routing`: an `@`,
then a maximal nonempty run of non-whitespace characters (the id token),
then at least one whitespace character, then the remainder. -/
def splitAtMention (s : List Char) : Option (List Char × List Char) :=
  match s with
  | [] => none
  | c :: rest =>
    if c = '@' then
      let idTok := rest.takeWhile (fun d => !d.isWhitespace)
      let after := rest.dropWhile (fun d => !d.isWhitespace)
      match idTok, after with
      | [], _ => none
      | _, [] => none
      | _, _ => some (idTok, after.dropWhile (fun d => d.isWhitespace))
    else none

/-- The agent-display-name loop of `parse_agent_routing`: first agent whose
lowercased name equals the candidate. -/
def findAgentByName (candidate : String) :
    List (String × AgentConfig) → Option String
  | [] => none
  | (id, cfg) :: rest =>
    if (⟨lowerChars cfg.name⟩ : String) = candidate then some id
    else findAgentByName candidate rest

/-- The team-display-name loop of `parse_agent_routing`: first team whose
lowercased name equals the candidate. -/
def findTeamByName (candidate : String) :
    List (String × TeamConfig) → Option TeamConfig
  | [] => none
  | (_, t) :: rest =>
    if (⟨lowerChars t.name⟩ : String) = candidate then some t
    else findTeamByName candidate rest

/-- The tail of `parse_agent_routing`: smart content routing, then the
`default` sentinel. -/
def smartOrDefault (raw_message : String)
    (agents : List (String × AgentConfig)) : RoutingResult :=
  match match_agent_by_content raw_message agents with
  | some matched_agent =>
    { agent_id := matched_agent, message := raw_message, is_team := false,
      multi_agents := [] }
  | none =>
    { agent_id := "default", message := raw_message, is_team := false,
      multi_agents := [] }

/-- Index of the first token not starting with `@` (list length when every
token does). -/
def firstNonAtIdx (tokens : List (List Char)) : Nat :=
  match tokens.findIdx? (fun t => !startsWithAt t) with
  | some i => i
  | none => tokens.length

/-- `parse_agent_routing` from `routing.rs`: multi-agent dispatch first,
then the single `@`-mention chain (agent id → team id → agent name → team
name), then smart routing, then the `default` sentinel. -/
def parse_agent_routing (raw_message : String)
    (agents : List (String × AgentConfig))
    (teams : List (String × TeamConfig)) : RoutingResult :=
  let mentioned := detect_multiple_agents raw_message agents teams
  if 1 < mentioned.length then
    let tokens := splitWhitespaceAux raw_message.data
    let msg : String := ⟨List.intercalate [' '] (tokens.drop (firstNonAtIdx tokens))⟩
    let msg := if msg = "" then raw_message else msg
    { agent_id := mentioned.headD "", message := msg, is_team := false,
      multi_agents := mentioned }
  else
    match splitAtMention raw_message.data with
    | some (idTok, restChars) =>
      let candidate_id : String := ⟨idTok.map Char.toLower⟩
      let rest : String := ⟨restChars⟩
      match lookupKey candidate_id agents with
      | some _ =>
        { agent_id := candidate_id, message := rest, is_team := false,
          multi_agents := [] }
      | none =>
        match lookupKey candidate_id teams with
        | some team =>
          { agent_id := team.leader_agent, message := rest, is_team := true,
            multi_agents := [] }
        | none =>
          match findAgentByName candidate_id agents with
          | some id =>
            { agent_id := id, message := rest, is_team := false,
              multi_agents := [] }
          | none =>
            match findTeamByName candidate_id teams with
            | some team =>
              { agent_id := team.leader_agent, message := rest, is_team := true,
                multi_agents := [] }
            | none => smartOrDefault raw_message agents
    | none => smartOrDefault raw_message agents

/-! ## Claim C4 -/

/-- Agent table for the single-mention routing claims. -/
def wAgents : List (String × AgentConfig) :=
  [("coder", mkRouteCfg none 0)]

/-- Team table for the single-mention routing claims. -/
def wTeams : List (String × TeamConfig) :=
  [("dev", { name := "Development Team", agents := ["coder", "reviewer"],
             leader_agent := "coder", description := none })]

/-- C4 counterexample: "coder" is a known agent id and the message
"@coder" is prefixed by `@coder`, but with no whitespace after the id token
the `^@(\S+)\s+([\s\S]*)$` regex does not match, so `parse_agent_routing`
falls through to the `default` sentinel instead of returning "coder". -/
theorem parse_routing_bare_mention_counterexample :
    (lookupKey "coder" wAgents).isSome = true ∧
    parse_agent_routing "@coder" wAgents [] =
      { agent_id := "default", message := "@coder", is_team := false,
        multi_agents := [] } := by
  decide

/-- C4 (amended): for every message of the form `@id` followed by at least
one whitespace character and a remainder, provided the message does not
trigger prefix multi-dispatch, a known (case-insensitively matched) agent
id routes to that agent with the matched remainder as message and
`is_team = false`, and a known team id routes to the team's leader with
`is_team = true`. -/
theorem parse_routing_single_mention (raw : String)
    (agents : List (String × AgentConfig)) (teams : List (String × TeamConfig))
    (idTok rest : List Char)
    (hsplit : splitAtMention raw.data = some (idTok, rest))
    (hmulti : ¬1 < (detect_multiple_agents raw agents teams).length) :
    (∀ cfg, lookupKey (⟨idTok.map Char.toLower⟩ : String) agents = some cfg →
      parse_agent_routing raw agents teams =
        { agent_id := ⟨idTok.map Char.toLower⟩, message := ⟨rest⟩,
          is_team := false, multi_agents := [] }) ∧
    (∀ team, lookupKey (⟨idTok.map Char.toLower⟩ : String) agents = none →
      lookupKey (⟨idTok.map Char.toLower⟩ : String) teams = some team →
      parse_agent_routing raw agents teams =
        { agent_id := team.leader_agent, message := ⟨rest⟩,
          is_team := true, multi_agents := [] }) := by
  constructor
  · intro cfg hlk
    simp only [parse_agent_routing]
    rw [if_neg hmulti, hsplit]
    simp only [hlk]
  · intro team hnone hteam
    simp only [parse_agent_routing]
    rw [if_neg hmulti, hsplit]
    simp only [hnone, hteam]

/-- C4 witness: `parse_routing_single_mention` applied to "@coder fix it"
against a known agent and to "@dev go" against a known team. -/
theorem parse_routing_single_mention_witness :
    parse_agent_routing "@coder fix it" wAgents [] =
      { agent_id := "coder", message := "fix it", is_team := false,
        multi_agents := [] } ∧
    parse_agent_routing "@dev go" [] wTeams =
      { agent_id := "coder", message := "go", is_team := true,
        multi_agents := [] } := by
  constructor
  · have h := (parse_routing_single_mention "@coder fix it" wAgents []
      "coder".data "fix it".data (by decide) (by decide)).1
      (mkRouteCfg none 0) (by decide)
    rw [h]
    rfl
  · have h := (parse_routing_single_mention "@dev go" [] wTeams
      "dev".data "go".data (by decide) (by decide)).2
      { name := "Development Team", agents := ["coder", "reviewer"],
        leader_agent := "coder", description := none }
      (by decide) (by decide)
    rw [h]

/-! ## Claim C5 -/

theorem smartOrDefault_no_multi (raw : String)
    (agents : List (String × AgentConfig)) :
    (smartOrDefault raw agents).multi_agents = [] := by
  cases h : match_agent_by_content raw agents <;> simp [smartOrDefault, h]

/-- Every result of the non-multi-dispatch path carries an empty
`multi_agents` list. -/
theorem parse_single_path_no_multi (raw : String)
    (agents : List (String × AgentConfig)) (teams : List (String × TeamConfig))
    (h : ¬1 < (detect_multiple_agents raw agents teams).length) :
    (parse_agent_routing raw agents teams).multi_agents = [] := by
  simp only [parse_agent_routing]
  rw [if_neg h]
  repeat' split
  all_goals first
    | rfl
    | exact smartOrDefault_no_multi raw agents

/-- C5 (amended): when the leading `@` run yields more than one distinct
known agent id and they do not all share one team, the parallel dispatch
returns exactly the collected ids (first one as `agent_id`) and the message
is the run-stripped token list joined by single spaces — or the whole raw
message when no token remains; when the collected ids do all share one
team, no multi-agent dispatch is returned. -/
theorem parse_routing_multi_dispatch (raw : String)
    (agents : List (String × AgentConfig)) (teams : List (String × TeamConfig)) :
    (1 < (collectLeadingAgents agents (splitWhitespaceAux raw.data) []).length →
      teams.any (fun t =>
        (collectLeadingAgents agents (splitWhitespaceAux raw.data) []).all
          (fun a => t.2.agents.contains a)) = false →
      parse_agent_routing raw agents teams =
        { agent_id :=
            (collectLeadingAgents agents (splitWhitespaceAux raw.data) []).headD "",
          message :=
            if (⟨List.intercalate [' ']
                ((splitWhitespaceAux raw.data).drop
                  (firstNonAtIdx (splitWhitespaceAux raw.data)))⟩ : String) = ""
            then raw
            else ⟨List.intercalate [' ']
                ((splitWhitespaceAux raw.data).drop
                  (firstNonAtIdx (splitWhitespaceAux raw.data)))⟩,
          is_team := false,
          multi_agents :=
            collectLeadingAgents agents (splitWhitespaceAux raw.data) [] }) ∧
    (teams.any (fun t =>
        (collectLeadingAgents agents (splitWhitespaceAux raw.data) []).all
          (fun a => t.2.agents.contains a)) = true →
      (parse_agent_routing raw agents teams).multi_agents = []) := by
  constructor
  · intro hlen hteam
    have hcond : ¬(1 < (collectLeadingAgents agents
        (splitWhitespaceAux raw.data) []).length ∧
        (teams.any (fun t =>
          (collectLeadingAgents agents (splitWhitespaceAux raw.data) []).all
            (fun a => t.2.agents.contains a))) = true) := by
      intro hcon
      rw [hteam] at hcon
      exact Bool.false_ne_true hcon.2
    have hdet : detect_multiple_agents raw agents teams =
        collectLeadingAgents agents (splitWhitespaceAux raw.data) [] := by
      simp only [detect_multiple_agents]
      rw [if_neg hcond]
    simp only [parse_agent_routing, hdet]
    rw [if_pos hlen]
  · intro hteam
    have hdet : ¬1 < (detect_multiple_agents raw agents teams).length := by
      by_cases hlen : 1 < (collectLeadingAgents agents
          (splitWhitespaceAux raw.data) []).length
      · have hzero : detect_multiple_agents raw agents teams = [] := by
          simp only [detect_multiple_agents]
          rw [if_pos ⟨hlen, hteam⟩]
        rw [hzero]
        simp
      · have hsame : detect_multiple_agents raw agents teams =
            collectLeadingAgents agents (splitWhitespaceAux raw.data) [] := by
          simp only [detect_multiple_agents]
          rw [if_neg (fun hcon => hlen hcon.1)]
        rw [hsame]
        exact hlen
    exact parse_single_path_no_multi raw agents teams hdet

/-- Agents for the C5 counterexample and witness: two known agents that
share no team. -/
def cAgents : List (String × AgentConfig) :=
  [("coder", mkRouteCfg none 0), ("tester", mkRouteCfg none 0)]

/-- C5 counterexample: for "@coder @tester" both ids are detected across
teams, so per the claim the returned message should equal the (empty)
remaining text after the `@` run; the code instead returns the whole raw
message "@coder @tester". -/
theorem multi_dispatch_empty_rest_counterexample :
    detect_multiple_agents "@coder @tester" cAgents [] = ["coder", "tester"] ∧
    (parse_agent_routing "@coder @tester" cAgents []).multi_agents =
      ["coder", "tester"] ∧
    (parse_agent_routing "@coder @tester" cAgents []).message =
      "@coder @tester" := by
  decide

/-- C5 witness: `parse_routing_multi_dispatch` applied to
"@coder @tester fix everything". -/
theorem parse_routing_multi_dispatch_witness :
    parse_agent_routing "@coder @tester fix everything" cAgents [] =
      { agent_id := "coder", message := "fix everything", is_team := false,
        multi_agents := ["coder", "tester"] } := by
  have h := (parse_routing_multi_dispatch "@coder @tester fix everything"
    cAgents []).1 (by decide) (by decide)
  rw [h]
  rfl

/-! ## Long responses (`rustyclaw-queue/src/conversation.rs`) -/

/-- `LONG_RESPONSE_THRESHOLD` from `conversation.rs`. -/
def LONG_RESPONSE_THRESHOLD : Nat := 4000

/-- The fixed note appended to a truncated preview. -/
def longResponseNote : List Char := "\n\n_(Full response attached as file)_".data

/-- `handle_long_response` from `conversation.rs`.  The text is a character
list; the write of the full text to a fresh file is embedded as the third
component (the content written to `new_file_path`, `none` when no file is
created); the timestamped file name is the parameter `new_file_path`. -/
def handle_long_response (response : List Char) (existing_files : List String)
    (new_file_path : String) : List Char × List String × Option (List Char) :=
  if response.length ≤ LONG_RESPONSE_THRESHOLD then
    (response, existing_files, none)
  else
    (response.take LONG_RESPONSE_THRESHOLD ++ longResponseNote,
     existing_files ++ [new_file_path],
     some response)

/-! ## Claim C10 -/

/-- C10: a response of at most 4000 characters is returned unchanged with
the file list unchanged and no file written; a strictly longer response is
truncated to its first 4000 characters followed by the fixed note, the new
file path is appended to the existing list, and the file receives the full
response text. -/
theorem handle_long_response_spec (response : List Char)
    (existing_files : List String) (new_file_path : String) :
    (response.length ≤ 4000 →
      handle_long_response response existing_files new_file_path =
        (response, existing_files, none)) ∧
    (4000 < response.length →
      handle_long_response response existing_files new_file_path =
        (response.take 4000 ++ longResponseNote,
         existing_files ++ [new_file_path], some response)) := by
  constructor
  · intro h
    simp [handle_long_response, LONG_RESPONSE_THRESHOLD, h]
  · intro h
    have h₂ : ¬response.length ≤ 4000 := by omega
    simp [handle_long_response, LONG_RESPONSE_THRESHOLD, h₂]

/-- C10 witness: the spec applied to a 2-character and a 4001-character
response. -/
theorem handle_long_response_spec_witness :
    handle_long_response "hi".data [] "files/response_1.md" =
      ("hi".data, [], none) ∧
    handle_long_response (List.replicate 4001 'x') ["a.txt"] "files/response_2.md" =
      (List.replicate 4000 'x' ++ longResponseNote,
       ["a.txt", "files/response_2.md"], some (List.replicate 4001 'x')) := by
  constructor
  · exact (handle_long_response_spec "hi".data [] "files/response_1.md").1
      (by decide)
  · have h := (handle_long_response_spec (List.replicate 4001 'x') ["a.txt"]
      "files/response_2.md").2 (by rw [List.length_replicate]; omega)
    rw [h, List.take_replicate]
    norm_num

/-! ## Session store (`rustyclaw-core/src/session.rs`) and the compaction
phase of `process_message_inner` (`rustyclaw-queue/src/processor.rs`) -/

/-- `SessionEntry` from `session.rs`. -/
structure SessionEntry where
  session_id : String
  updated_at : Nat
  channel : String
  sender : String
  total_chars : Nat
  compaction_count : Nat
deriving DecidableEq

/-- The session store: `HashMap<String, SessionEntry>`. -/
abbrev SessionMap := List (String × SessionEntry)

/-- `resolve_session_key` from `session.rs`. -/
def resolve_session_key (agent_id channel sender : String) : String :=
  agent_id ++ ":" ++ channel ++ ":" ++ sender

/-- The placeholder summary recorded when the summarization invocation
fails (`processor.rs`). -/
def compaction_placeholder (total_chars : Nat) : String :=
  "[Compaction summary unavailable. " ++ toString total_chars ++
    " chars of context were accumulated.]"

/-- The session-store mutation of the compaction block in
`process_message_inner`: reload the store and, when the key is present, set
`total_chars` to the summary length and increment `compaction_count`. -/
def apply_compaction (sessions : SessionMap) (session_key : String)
    (summary : String) : SessionMap :=
  match lookupKey session_key sessions with
  | some entry =>
    insertKey sessions session_key
      { entry with total_chars := summary.length,
                   compaction_count := entry.compaction_count + 1 }
  | none => sessions

/-- The compaction phase of `process_message_inner`: runs exactly when
`should_compact` holds for the just-updated session entry; the nested
summarization invocation is the oracle `summary_result`; a failed
summarization is non-fatal and records the placeholder text as the summary.
Returns the new store and the recorded summary (`none` when compaction did
not trigger). -/
def compaction_phase (sessions : SessionMap) (session_key : String)
    (session_entry : SessionEntry) (context_window reserve_tokens : Nat)
    (summary_result : Except String String) : SessionMap × Option String :=
  if should_compact session_entry.total_chars context_window reserve_tokens then
    let summary :=
      match summary_result with
      | .ok s => s
      | .error _ => compaction_placeholder session_entry.total_chars
    (apply_compaction sessions session_key summary, some summary)
  else
    (sessions, none)

/-! ## Claim C8 -/

/-- C8: when compaction triggers and the session entry exists, afterwards
the stored entry's running character total equals the produced summary's
length and its compaction counter has grown by exactly one; on a successful
summarization the summary is the invocation result, and on a failed one it
is the (nonempty) placeholder note while the counter still increments and
processing continues. -/
theorem compaction_updates_session (sessions : SessionMap)
    (session_key : String) (session_entry entry : SessionEntry)
    (context_window reserve_tokens : Nat)
    (summary_result : Except String String)
    (htrig : should_compact session_entry.total_chars context_window
      reserve_tokens = true)
    (hmem : lookupKey session_key sessions = some entry) :
    ∃ summary,
      compaction_phase sessions session_key session_entry context_window
          reserve_tokens summary_result =
        (insertKey sessions session_key
          { entry with total_chars := summary.length,
                       compaction_count := entry.compaction_count + 1 },
         some summary) ∧
      lookupKey session_key
          (compaction_phase sessions session_key session_entry context_window
            reserve_tokens summary_result).1 =
        some { entry with total_chars := summary.length,
                          compaction_count := entry.compaction_count + 1 } ∧
      (∀ s, summary_result = .ok s → summary = s) ∧
      (∀ msg, summary_result = .error msg →
        summary = compaction_placeholder session_entry.total_chars ∧
          0 < summary.length) := by
  have hph : ∀ summary : String,
      apply_compaction sessions session_key summary =
        insertKey sessions session_key
          { entry with total_chars := summary.length,
                       compaction_count := entry.compaction_count + 1 } := by
    intro summary
    unfold apply_compaction
    rw [hmem]
  have hplen : ∀ n : Nat, 0 < (compaction_placeholder n).length := by
    intro n
    have h₁ : ("[Compaction summary unavailable. " : String).length = 33 := rfl
    have h₂ := String.length_append
      ("[Compaction summary unavailable. " ++ toString n)
      " chars of context were accumulated.]"
    have h₃ := String.length_append "[Compaction summary unavailable. "
      (toString n)
    unfold compaction_placeholder
    omega
  cases summary_result with
  | ok s =>
    refine ⟨s, ?_, ?_, ?_, ?_⟩
    · unfold compaction_phase
      rw [if_pos htrig]
      show (apply_compaction sessions session_key s, some s) = _
      rw [hph s]
    · unfold compaction_phase
      rw [if_pos htrig]
      show lookupKey session_key (apply_compaction sessions session_key s) = _
      rw [hph s]
      exact lookupKey_insertKey_self _ _ _
    · intro s₁ hs₁
      exact Except.ok.inj hs₁
    · intro msg hmsg
      exact Except.noConfusion hmsg
  | error msg₀ =>
    refine ⟨compaction_placeholder session_entry.total_chars, ?_, ?_, ?_, ?_⟩
    · unfold compaction_phase
      rw [if_pos htrig]
      show (apply_compaction sessions session_key
        (compaction_placeholder session_entry.total_chars),
        some (compaction_placeholder session_entry.total_chars)) = _
      rw [hph _]
    · unfold compaction_phase
      rw [if_pos htrig]
      show lookupKey session_key (apply_compaction sessions session_key
        (compaction_placeholder session_entry.total_chars)) = _
      rw [hph _]
      exact lookupKey_insertKey_self _ _ _
    · intro s₁ hs₁
      exact Except.noConfusion hs₁
    · intro msg hmsg
      exact ⟨rfl, hplen _⟩

/-- Session store for the C8 witness. -/
def wSessions : SessionMap :=
  [("coder:discord:alice",
    { session_id := "sess-1", updated_at := 0, channel := "discord",
      sender := "alice", total_chars := 4000, compaction_count := 2 })]

/-- C8 witness: `compaction_updates_session` on a concrete over-budget
session whose summarization fails. -/
theorem compaction_updates_session_witness :
    ∃ summary,
      compaction_phase wSessions "coder:discord:alice"
          { session_id := "sess-1", updated_at := 0, channel := "discord",
            sender := "alice", total_chars := 4000, compaction_count := 2 }
          1000 200 (.error "boom") =
        (insertKey wSessions "coder:discord:alice"
          { session_id := "sess-1", updated_at := 0, channel := "discord",
            sender := "alice", total_chars := summary.length,
            compaction_count := 3 },
         some summary) ∧
      lookupKey "coder:discord:alice"
          (compaction_phase wSessions "coder:discord:alice"
            { session_id := "sess-1", updated_at := 0, channel := "discord",
              sender := "alice", total_chars := 4000, compaction_count := 2 }
            1000 200 (.error "boom")).1 =
        some { session_id := "sess-1", updated_at := 0, channel := "discord",
               sender := "alice", total_chars := summary.length,
               compaction_count := 3 } ∧
      (∀ s, (Except.error "boom" : Except String String) = .ok s → summary = s) ∧
      (∀ msg, (Except.error "boom" : Except String String) = .error msg →
        summary = compaction_placeholder 4000 ∧ 0 < summary.length) :=
  compaction_updates_session wSessions "coder:discord:alice"
    { session_id := "sess-1", updated_at := 0, channel := "discord",
      sender := "alice", total_chars := 4000, compaction_count := 2 }
    { session_id := "sess-1", updated_at := 0, channel := "discord",
      sender := "alice", total_chars := 4000, compaction_count := 2 }
    1000 200 (.error "boom") (by decide) (by decide)

/-! ## JSON round-trips of the persisted stores (`failover.rs`,
`session.rs`): claim C9 -/

/-- JSON values as produced by the derived serializers of the two stores
(string fields, unsigned-integer fields, string-keyed objects). -/
inductive Json where
  | str : String → Json
  | num : Nat → Json
  | obj : List (String × Json) → Json

/-- The derived `Serialize` for `CooldownEntry`. -/
def cooldownEntryToJson (e : CooldownEntry) : Json :=
  .obj [("until", .num e.«until»), ("error_count", .num e.error_count)]

/-- The derived `Deserialize` for `CooldownEntry`. -/
def cooldownEntryFromJson : Json → Option CooldownEntry
  | .obj fields =>
    match lookupKey "until" fields, lookupKey "error_count" fields with
    | some (.num u), some (.num c) => some ⟨u, c⟩
    | _, _ => none
  | _ => none

/-- The derived `Serialize` for `SessionEntry`. -/
def sessionEntryToJson (e : SessionEntry) : Json :=
  .obj [("session_id", .str e.session_id), ("updated_at", .num e.updated_at),
        ("channel", .str e.channel), ("sender", .str e.sender),
        ("total_chars", .num e.total_chars),
        ("compaction_count", .num e.compaction_count)]

/-- The derived `Deserialize` for `SessionEntry`. -/
def sessionEntryFromJson : Json → Option SessionEntry
  | .obj fields =>
    match lookupKey "session_id" fields, lookupKey "updated_at" fields,
      lookupKey "channel" fields, lookupKey "sender" fields,
      lookupKey "total_chars" fields, lookupKey "compaction_count" fields with
    | some (.str sid), some (.num up), some (.str ch), some (.str sd),
        some (.num tc), some (.num cc) => some ⟨sid, up, ch, sd, tc, cc⟩
    | _, _, _, _, _, _ => none
  | _ => none

/-- A string-keyed store serialized as a JSON object. -/
def encodeStore (enc : β → Json) (store : List (String × β)) : Json :=
  .obj (store.map (fun p => (p.1, enc p.2)))

/-- Entry-wise decoding of an object's fields. -/
def decodeEntries (dec : Json → Option β) :
    List (String × Json) → Option (List (String × β))
  | [] => some []
  | (k, j) :: rest =>
    match dec j, decodeEntries dec rest with
    | some v, some tail => some ((k, v) :: tail)
    | _, _ => none

/-- Decoding a store; like `unwrap_or_default` in `load_cooldowns` /
`load_sessions`, malformed documents degrade to the empty map. -/
def decodeStore (dec : Json → Option β) : Json → List (String × β)
  | .obj fields => (decodeEntries dec fields).getD []
  | _ => []

/-- `save_cooldowns` from `failover.rs` composed with the serializer: the
JSON document written to the cooldown file. -/
def save_cooldowns (cooldowns : CooldownMap) : Json :=
  encodeStore cooldownEntryToJson cooldowns

/-- `load_cooldowns` from `failover.rs`. -/
def load_cooldowns (j : Json) : CooldownMap :=
  decodeStore cooldownEntryFromJson j

/-- `save_sessions` from `session.rs` composed with the serializer. -/
def save_sessions (store : SessionMap) : Json :=
  encodeStore sessionEntryToJson store

/-- `load_sessions` from `session.rs`. -/
def load_sessions (j : Json) : SessionMap :=
  decodeStore sessionEntryFromJson j

theorem cooldownEntry_roundtrip (e : CooldownEntry) :
    cooldownEntryFromJson (cooldownEntryToJson e) = some e := rfl

theorem sessionEntry_roundtrip (e : SessionEntry) :
    sessionEntryFromJson (sessionEntryToJson e) = some e := rfl

theorem decodeEntries_encode (dec : Json → Option β) (enc : β → Json)
    (hvalid : ∀ v, dec (enc v) = some v) :
    ∀ store : List (String × β),
      decodeEntries dec (store.map (fun p => (p.1, enc p.2))) = some store := by
  intro store
  induction store with
  | nil => rfl
  | cons p rest ih =>
    obtain ⟨k, v⟩ := p
    simp only [List.map_cons, decodeEntries, hvalid, ih]

/-- C9: saving the cooldown store or the session store and loading it back
yields a structurally identical map — the same keys with, for each key, the
same field values. -/
theorem store_roundtrip (cooldowns : CooldownMap) (sessions : SessionMap) :
    load_cooldowns (save_cooldowns cooldowns) = cooldowns ∧
    load_sessions (save_sessions sessions) = sessions := by
  constructor
  · simp only [load_cooldowns, save_cooldowns, encodeStore, decodeStore]
    rw [decodeEntries_encode cooldownEntryFromJson cooldownEntryToJson
      cooldownEntry_roundtrip]
    rfl
  · simp only [load_sessions, save_sessions, encodeStore, decodeStore]
    rw [decodeEntries_encode sessionEntryFromJson sessionEntryToJson
      sessionEntry_roundtrip]
    rfl

/-! ## Conversation tracker (`rustyclaw-queue/src/conversation.rs` and the
branch bookkeeping of `process_message_inner` in `processor.rs`) -/

/-- `TeamContext` from `types.rs`. -/
structure TeamContext where
  team_id : String
  team : TeamConfig
deriving DecidableEq

/-- `ChainStep` from `types.rs`. -/
structure ChainStep where
  agent_id : String
  response : String
deriving DecidableEq

/-- `MAX_CONVERSATION_MESSAGES` from `conversation.rs`. -/
def MAX_CONVERSATION_MESSAGES : Nat := 50

/-- `Conversation` from `types.rs` (in-memory only; `files` is a `HashSet`
kept here as the insertion list). -/
structure Conversation where
  id : String
  channel : String
  sender : String
  original_message : String
  message_id : String
  pending : Int
  responses : List ChainStep
  files : List String
  total_messages : Nat
  max_messages : Nat
  team_context : Option TeamContext
  start_time : Nat
  outgoing_mentions : List (String × Nat)
deriving DecidableEq

/-- `create_conversation` from `conversation.rs`: fresh id from the message
id and the creation time, `pending = 1`. -/
def create_conversation (message_id channel sender original_message : String)
    (team_context : Option TeamContext) (now : Nat) : Conversation :=
  { id := message_id ++ "_" ++ toString now,
    channel := channel, sender := sender,
    original_message := original_message, message_id := message_id,
    pending := 1, responses := [], files := [], total_messages := 0,
    max_messages := MAX_CONVERSATION_MESSAGES, team_context := team_context,
    start_time := now, outgoing_mentions := [] }

/-- One branch's conversation mutation in `process_message_inner`,
identical in the team and the ad-hoc paths: append the response step, bump
the processed-message count, collect files, then — only when at least one
mention was extracted and the bumped count is still below the cap — add the
mention count to `pending` and record it in `outgoing_mentions`, and
finally subtract 1 for the finishing branch.  The extracted mentions are
abstracted by their count `mention_count`, so the statement quantifies over
every possible extractor output. -/
def record_branch (conv : Conversation) (step : ChainStep)
    (mention_count : Nat) (new_files : List String) : Conversation :=
  let conv₁ := { conv with
    responses := conv.responses ++ [step],
    total_messages := conv.total_messages + 1,
    files := conv.files ++ new_files }
  let conv₂ :=
    if 0 < mention_count ∧ conv₁.total_messages < conv₁.max_messages then
      { conv₁ with
        pending := conv₁.pending + (mention_count : Int),
        outgoing_mentions :=
          insertKey conv₁.outgoing_mentions step.agent_id mention_count }
    else conv₁
  { conv₂ with pending := conv₂.pending - 1 }

/-- The conversation table (`HashMap<String, Conversation>` behind the
processor's mutex). -/
abbrev ConversationTable := List (String × Conversation)

/-- Finishing a branch of a live conversation: mutate via `record_branch`,
then remove (and finalize through `complete_conversation`) exactly when
`pending` reached 0, else write the conversation back. -/
def process_branch (table : ConversationTable) (conv_id : String)
    (step : ChainStep) (mention_count : Nat) (new_files : List String) :
    ConversationTable :=
  match lookupKey conv_id table with
  | some conv =>
    let conv := record_branch conv step mention_count new_files
    if conv.pending = 0 then removeKey table conv_id
    else insertKey table conv_id conv
  | none => table

/-- Transitions of the conversation table, as driven by
`process_message_inner` and the timeout sweep of `run_queue_processor`:
creation with `pending = 1` (team or ad-hoc), creation with `pending` set
to the fan-out count of a multi-agent dispatch (always at least 2), a
branch finishing, and a timeout force-completion that removes the
conversation. -/
inductive ConvStep : ConversationTable → ConversationTable → Prop
  | create_single (table : ConversationTable)
      (message_id channel sender original_message : String)
      (team_context : Option TeamContext) (now : Nat) :
      ConvStep table
        (insertKey table
          (create_conversation message_id channel sender original_message
            team_context now).id
          (create_conversation message_id channel sender original_message
            team_context now))
  | create_multi (table : ConversationTable)
      (message_id channel sender original_message : String) (now : Nat)
      (fan_out : Nat) (hk : 1 < fan_out) :
      ConvStep table
        (insertKey table
          (create_conversation message_id channel sender original_message
            none now).id
          { create_conversation message_id channel sender original_message
              none now with pending := (fan_out : Int) })
  | branch (table : ConversationTable) (conv_id : String) (step : ChainStep)
      (mention_count : Nat) (new_files : List String) :
      ConvStep table (process_branch table conv_id step mention_count new_files)
  | timeout (table : ConversationTable) (conv_id : String) :
      ConvStep table (removeKey table conv_id)

/-- Conversation tables reachable from the empty table. -/
inductive ConvReachable : ConversationTable → Prop
  | init : ConvReachable []
  | step {t₁ t₂ : ConversationTable} :
      ConvReachable t₁ → ConvStep t₁ t₂ → ConvReachable t₂

theorem lookupKey_mem {l : List (String × β)} {k : String} {v : β}
    (h : lookupKey k l = some v) : (k, v) ∈ l := by
  induction l with
  | nil => simp [lookupKey] at h
  | cons p rest ih =>
    obtain ⟨k₁, v₁⟩ := p
    by_cases hk : k₁ = k
    · rw [lookupKey, if_pos hk] at h
      subst hk
      rw [Option.some.inj h]
      exact List.mem_cons_self _ _
    · rw [lookupKey, if_neg hk] at h
      exact List.mem_cons_of_mem _ (ih h)

/-- The pending arithmetic of one branch: add the mention count exactly
when mentions were emitted below the cap, then subtract 1. -/
theorem record_branch_pending (conv : Conversation) (step : ChainStep)
    (mention_count : Nat) (new_files : List String) :
    (record_branch conv step mention_count new_files).pending =
      conv.pending +
        (if 0 < mention_count ∧ conv.total_messages + 1 < conv.max_messages
         then (mention_count : Int) else 0) - 1 := by
  by_cases hc : 0 < mention_count ∧ conv.total_messages + 1 < conv.max_messages
  · simp only [record_branch]
    rw [if_pos hc, if_pos hc]
  · simp only [record_branch]
    rw [if_neg hc, if_neg hc]
    show conv.pending - 1 = conv.pending + 0 - 1
    omega

/-- Every transition preserves the invariant that live conversations have a
strictly positive pending branch counter. -/
theorem convStep_preserves {t₁ t₂ : ConversationTable}
    (hstep : ConvStep t₁ t₂) (hinv : ∀ p ∈ t₁, 1 ≤ p.2.pending) :
    ∀ p ∈ t₂, 1 ≤ p.2.pending := by
  cases hstep with
  | create_single message_id channel sender original_message tc now =>
    intro p hp
    rcases mem_insertKey hp with h | h
    · exact hinv p h
    · rw [h]
      exact le_refl 1
  | create_multi message_id channel sender original_message now fan_out hk =>
    intro p hp
    rcases mem_insertKey hp with h | h
    · exact hinv p h
    · rw [h]
      show (1 : Int) ≤ (fan_out : Int)
      omega
  | branch conv_id step mention_count new_files =>
    intro p hp
    unfold process_branch at hp
    cases hlk : lookupKey conv_id t₁ with
    | none =>
      rw [hlk] at hp
      exact hinv p hp
    | some conv =>
      rw [hlk] at hp
      have hp₂ : p ∈ (if (record_branch conv step mention_count new_files).pending = 0
          then removeKey t₁ conv_id
          else insertKey t₁ conv_id (record_branch conv step mention_count new_files)) := hp
      by_cases hz : (record_branch conv step mention_count new_files).pending = 0
      · rw [if_pos hz] at hp₂
        exact hinv p (mem_removeKey hp₂)
      · rw [if_neg hz] at hp₂
        rcases mem_insertKey hp₂ with h | h
        · exact hinv p h
        · rw [h]
          have h₁ : 1 ≤ conv.pending := hinv (conv_id, conv) (lookupKey_mem hlk)
          have h₂ := record_branch_pending conv step mention_count new_files
          by_cases hc : 0 < mention_count ∧
              conv.total_messages + 1 < conv.max_messages
          · rw [if_pos hc] at h₂
            simp only
            omega
          · rw [if_neg hc] at h₂
            simp only
            omega
  | timeout conv_id =>
    intro p hp
    exact hinv p (mem_removeKey hp)

theorem convReachable_inv (t : ConversationTable) (h : ConvReachable t) :
    ∀ p ∈ t, 1 ≤ p.2.pending := by
  induction h with
  | init =>
    intro p hp
    simp at hp
  | step _ hstep ih => exact convStep_preserves hstep ih

/-! ## Claim C1 -/

/-- C1: in every reachable conversation table each live conversation has
`pending ≥ 1` (so the counter is never negative while the conversation is
tracked, and a live conversation never shows `pending = 0`); a finishing
branch first adds its mention count — only when mentions were emitted and
the bumped processed-message count is below the cap — and then subtracts 1,
the result never negative; and the table transition removes (and so
finalizes) the conversation exactly when the updated counter is 0,
otherwise keeping it live, so zero is reached exactly at the single removal
point.  Conversations start at `pending = 1`
(`create_conversation`), or at the fan-out count for a multi-agent
dispatch (`ConvStep.create_multi`). -/
theorem conversation_pending_invariant (t : ConversationTable)
    (h : ConvReachable t) :
    (∀ p ∈ t, 1 ≤ p.2.pending) ∧
    (∀ conv_id conv step mention_count new_files,
      lookupKey conv_id t = some conv →
      (record_branch conv step mention_count new_files).pending =
        conv.pending +
          (if 0 < mention_count ∧ conv.total_messages + 1 < conv.max_messages
           then (mention_count : Int) else 0) - 1 ∧
      0 ≤ (record_branch conv step mention_count new_files).pending ∧
      process_branch t conv_id step mention_count new_files =
        (if (record_branch conv step mention_count new_files).pending = 0
         then removeKey t conv_id
         else insertKey t conv_id
           (record_branch conv step mention_count new_files))) := by
  have hinv := convReachable_inv t h
  refine ⟨hinv, ?_⟩
  intro conv_id conv step mention_count new_files hlk
  have h₁ : 1 ≤ conv.pending := hinv (conv_id, conv) (lookupKey_mem hlk)
  have h₂ := record_branch_pending conv step mention_count new_files
  refine ⟨h₂, ?_, ?_⟩
  · by_cases hc : 0 < mention_count ∧ conv.total_messages + 1 < conv.max_messages
    · rw [if_pos hc] at h₂
      omega
    · rw [if_neg hc] at h₂
      omega
  · unfold process_branch
    rw [hlk]

/-- C1 witness: the invariant read back on a table holding one freshly
created conversation. -/
theorem conversation_pending_invariant_witness :
    1 ≤ (create_conversation "m1" "discord" "alice" "hello" none 17).pending :=
  (conversation_pending_invariant _
    (ConvReachable.step ConvReachable.init
      (ConvStep.create_single [] "m1" "discord" "alice" "hello" none 17))).1
    ((create_conversation "m1" "discord" "alice" "hello" none 17).id,
      create_conversation "m1" "discord" "alice" "hello" none 17)
    (List.mem_singleton.mpr rfl)

end RustyClaw
